import Mathlib

/-
Verification development for the CNE (Conventional Neural Evolution)
optimizer documented in this repository.  The repository ships only the
optimizer's tutorial text (src/unnamed/part_000, the cne.txt tutorial) and
the FunctionType policy page (src/doc/policies/functiontype.hpp); the
implementation itself (cne.hpp / cne_impl.hpp) is not part of the
repository.  The definitions below therefore model the optimizer from the
specification's description of the per-generation protocol, keeping the
tutorial text authoritative wherever it speaks (the populationSize >= 4
bound, the mutation-noise range between 0 and mutationSize, the
negative-value switches for tolerance and objectiveChange, and the
two-consecutive-generation objectiveChange window).

Parameters are modelled as rationals; randomness is modelled as an explicit
oracle of draws so that every run of the optimizer is a total, executable
function of its inputs.
-/

namespace CNE

/-- Modelled from the spec: a Candidate is an ordered sequence of
real-valued parameters (here rationals), one full decision variable. -/
abbrev Candidate := List ℚ

/-- Modelled from the spec: a Population is an ordered collection of
Candidates. -/
abbrev Population := List Candidate

/-- Modelled from the spec: the error raised at construction time on
invalid hyperparameters. -/
inductive CNEError where
  | ConfigurationError
deriving DecidableEq, Repr

/-- Modelled from the spec: the immutable set of hyperparameters fixed at
construction, mirroring the seven constructor parameters of the CNE class
in the tutorial. -/
structure Config where
  populationSize : ℕ
  maxGenerations : ℕ
  mutationProb : ℚ
  mutationSize : ℚ
  selectPercent : ℚ
  tolerance : ℚ
  objectiveChange : ℚ
deriving DecidableEq, Repr

/-- Modelled from the spec: construction validates the hyperparameters and
fails fast with ConfigurationError on a population size below 4 (tutorial,
cne.txt: "populationSize should be at least greator than or equal to 4"),
a probability outside [0,1] (mutationProb, selectPercent) or a negative
mutation magnitude; the missing cne.hpp constructor is what is being
modelled. -/
def construct (populationSize maxGenerations : ℕ)
    (mutationProb mutationSize selectPercent tolerance objectiveChange : ℚ) :
    Except CNEError Config :=
  if populationSize < 4 then .error .ConfigurationError
  else if mutationProb < 0 ∨ 1 < mutationProb then .error .ConfigurationError
  else if selectPercent < 0 ∨ 1 < selectPercent then .error .ConfigurationError
  else if mutationSize < 0 then .error .ConfigurationError
  else .ok ⟨populationSize, maxGenerations, mutationProb, mutationSize,
    selectPercent, tolerance, objectiveChange⟩

/-- A configuration is valid when it satisfies the documented invariants:
population size at least 4, probabilities in [0,1], mutation magnitude
nonnegative. -/
abbrev Config.Valid (cfg : Config) : Prop :=
  4 ≤ cfg.populationSize ∧
  0 ≤ cfg.mutationProb ∧ cfg.mutationProb ≤ 1 ∧
  0 ≤ cfg.selectPercent ∧ cfg.selectPercent ≤ 1 ∧
  0 ≤ cfg.mutationSize

/-- The documented default hyperparameters of the CNE constructor
(tutorial, cne.txt lines 75-81). -/
def defaultConfig : Config :=
  ⟨500, 5000, 1/10, 1/50, 1/5, 1/100000, 1/100000⟩

/-- Randomness oracle: the stream of random draws a run consumes.
`parent g s` picks the parent for slot `s` of generation `g` (used modulo
the number of parents), `mutateP g s j` decides whether parameter `j` of
that slot mutates, and `noise g s j` is the mutation noise added. -/
structure Oracle where
  parent : ℕ → ℕ → ℕ
  mutateP : ℕ → ℕ → ℕ → Bool
  noise : ℕ → ℕ → ℕ → ℚ

/-- Noise range of a mutation draw as the source tutorial documents it
(cne.txt lines 108-113: "The range of mutation noise to be added. This
range is between 0 and mutationSize"). -/
abbrev mutationNoiseValid (cfg : Config) (n : ℚ) : Prop :=
  0 ≤ n ∧ n ≤ cfg.mutationSize

/-- Noise range as the specification's words claim it (uniform over
[-mutationSize, mutationSize]); stated only to be compared with
`mutationNoiseValid`, which follows the source tutorial. -/
abbrev specMutationNoiseValid (cfg : Config) (n : ℚ) : Prop :=
  -cfg.mutationSize ≤ n ∧ n ≤ cfg.mutationSize

/-- An oracle is valid for a configuration when every noise draw lies in
the documented range between 0 and mutationSize. -/
def Oracle.Valid (cfg : Config) (o : Oracle) : Prop :=
  ∀ g s j, mutationNoiseValid cfg (o.noise g s j)

/-- Modelled from the spec: mutate the parameters of a candidate,
independently for each parameter; `j` is the index of the first parameter
of the tail being processed.  The missing cne_impl.hpp mutation step is
what is being modelled. -/
def mutateParams (o : Oracle) (g s : ℕ) : ℕ → List ℚ → List ℚ
  | _, [] => []
  | j, x :: xs =>
      (if o.mutateP g s j then x + o.noise g s j else x) :: mutateParams o g s (j + 1) xs

/-- Mutate a whole candidate, parameter indices starting at 0. -/
def mutateCandidate (o : Oracle) (g s : ℕ) (c : Candidate) : Candidate :=
  mutateParams o g s 0 c

/-- Ceiling of a rational times a natural number, computed on the
numerator and denominator (equal to Int.ceil of the product, proved in
`ceilMulNat_eq` below). -/
def ceilMulNat (q : ℚ) (n : ℕ) : ℤ :=
  -((-(q.num * n)) / (q.den : ℤ))

/-- Modelled from the spec: the number of candidates retained as parents,
the top ceil(selectPercent * populationSize), never fewer than 2. -/
def numParents (cfg : Config) : ℕ :=
  max 2 (Int.toNat (ceilMulNat cfg.selectPercent cfg.populationSize))

/-- Ordering used to rank (candidate, fitness) pairs by ascending
fitness. -/
def fitnessOrder : Candidate × ℚ → Candidate × ℚ → Prop :=
  fun a b => a.2 ≤ b.2

instance : DecidableRel fitnessOrder :=
  fun a b => inferInstanceAs (Decidable (a.2 ≤ b.2))

instance : IsTotal (Candidate × ℚ) fitnessOrder :=
  ⟨fun a b => le_total a.2 b.2⟩

instance : IsTrans (Candidate × ℚ) fitnessOrder :=
  ⟨fun _ _ _ h1 h2 => le_trans h1 h2⟩

/-- Modelled from the spec: rank candidates by fitness, ascending for
minimization, ties broken by stable order of current rank (stable
insertion sort). -/
def rankPairs (pairs : List (Candidate × ℚ)) : List (Candidate × ℚ) :=
  pairs.insertionSort fitnessOrder

/-- Modelled from the spec: evaluate the objective value of every candidate
in the population, pairing each candidate with its fitness record. -/
def evalPop (f : Candidate → ℚ) (pop : Population) : List (Candidate × ℚ) :=
  pop.map (fun c => (c, f c))

/-- Modelled from the spec: select the top `numParents` ranked candidates
as parents for the next generation. -/
def selectParents (cfg : Config) (pairs : List (Candidate × ℚ)) : Population :=
  ((rankPairs pairs).take (numParents cfg)).map Prod.fst

/-- Modelled from the spec: produce one new candidate for slot `s` by
copying a parent chosen from the selected set and mutating it. -/
def makeChild (o : Oracle) (g s : ℕ) (parents : Population) : Candidate :=
  mutateCandidate o g s (parents.getD (o.parent g s % parents.length) [])

/-- Modelled from the spec: regenerate `count` population slots from the
parents. -/
def regenerate (o : Oracle) (g : ℕ) (parents : Population) (count : ℕ) : Population :=
  (List.range count).map (fun s => makeChild o g s parents)

/-- Modelled from the spec: form the next generation's population from the
ranked (candidate, fitness) pairs of the current one: the parents carry
over unmodified into the surviving slots and the remaining slots are
regenerated by mutation of parents. -/
def generationStep (cfg : Config) (o : Oracle) (g : ℕ)
    (pairs : List (Candidate × ℚ)) : Population :=
  let parents := selectParents cfg pairs
  parents ++ regenerate o g parents (cfg.populationSize - parents.length)

/-- The best (candidate, fitness) pair of an evaluated population: the head
of the ranking (a dummy pair on the empty population). -/
def bestOfPairs (pairs : List (Candidate × ℚ)) : Candidate × ℚ :=
  match rankPairs pairs with
  | [] => ([], 0)
  | p :: _ => p

/-- Minimum fitness value of a population under objective `f`. -/
def minFitness (f : Candidate → ℚ) (pop : Population) : ℚ :=
  (bestOfPairs (evalPop f pop)).2

/-- Modelled from the spec: update the best-fitness record of the run state
with the best pair of the current generation. -/
def updateRecord (record : Option (Candidate × ℚ)) (gb : Candidate × ℚ) :
    Candidate × ℚ :=
  match record with
  | none => gb
  | some r => if gb.2 < r.2 then gb else r

/-- Modelled from the spec: the tolerance termination check, considered
only when `tolerance` is nonnegative (tutorial, cne.txt lines 120-124). -/
def tolTriggered (cfg : Config) (best : ℚ) : Bool :=
  decide (0 ≤ cfg.tolerance) && decide (best ≤ cfg.tolerance)

/-- Modelled from the spec: the objectiveChange termination check over the
best fitness of the two most recent consecutive generations, considered
only when `objectiveChange` is nonnegative (tutorial, cne.txt lines
126-130: the run continues only while the change in best fitness between
two consecutive generations is greater than objectiveChange). -/
def objTriggered (cfg : Config) (prevF : Option ℚ) (best : ℚ) : Bool :=
  match prevF with
  | none => false
  | some p => decide (0 ≤ cfg.objectiveChange) && decide (p - best ≤ cfg.objectiveChange)

/-- Why a run stopped (internal run information; the exposed result is the
best parameters and fitness only). -/
inductive StopReason where
  | maxGenerations
  | toleranceReached
  | objectiveChangeSmall
deriving DecidableEq, Repr

/-- Outcome of a run: the best candidate observed across all generations,
its fitness value, the number of generations executed and the stop
reason. -/
structure RunOutcome where
  bestParams : Candidate
  bestFitness : ℚ
  generations : ℕ
  reason : StopReason
deriving DecidableEq, Repr

/-- Modelled from the spec: the per-generation loop of the missing
cne_impl.hpp Optimize.  Each round evaluates the population, updates the
best-fitness record, and then checks the termination conditions in the
documented order (generation count reaching maxGenerations first, then
tolerance, then objectiveChange); `remaining` counts the generations still
allowed, `gensDone` the generations already completed, `record` is the best
pair seen so far and `prevF` the best fitness of the previous
generation. -/
def optimizeLoop (cfg : Config) (f : Candidate → ℚ) (o : Oracle) :
    ℕ → ℕ → Population → Option (Candidate × ℚ) → Option ℚ → RunOutcome
  | remaining, gensDone, pop, record, prevF =>
    let pairs := evalPop f pop
    let best := updateRecord record (bestOfPairs pairs)
    let g := gensDone + 1
    match remaining with
    | 0 => ⟨best.1, best.2, g, .maxGenerations⟩
    | 1 => ⟨best.1, best.2, g, .maxGenerations⟩
    | r + 2 =>
      if tolTriggered cfg best.2 then ⟨best.1, best.2, g, .toleranceReached⟩
      else if objTriggered cfg prevF best.2 then ⟨best.1, best.2, g, .objectiveChangeSmall⟩
      else optimizeLoop cfg f o (r + 1) g (generationStep cfg o g pairs)
        (some best) (some best.2)

/-- Modelled from the spec: the exposed Optimize operation on a given
initial population, running up to maxGenerations generations. -/
def Optimize (cfg : Config) (f : Candidate → ℚ) (o : Oracle) (pop : Population) :
    RunOutcome :=
  optimizeLoop cfg f o cfg.maxGenerations 0 pop none none

/-- Modelled from the spec: the initial population, created once at
optimizer start with randomly initialized candidates (draws taken from
`init`) of dimensionality `d`. -/
def initPopulation (cfg : Config) (init : ℕ → ℕ → ℚ) (d : ℕ) : Population :=
  (List.range cfg.populationSize).map (fun i => (List.range d).map (fun j => init i j))

/-- Modelled from the spec: Optimize(objective, initialParameters), with
the population initialized to the dimensionality of the initial
parameters. -/
def OptimizeFrom (cfg : Config) (f : Candidate → ℚ) (o : Oracle)
    (init : ℕ → ℕ → ℚ) (initialParameters : Candidate) : RunOutcome :=
  Optimize cfg f o (initPopulation cfg init initialParameters.length)

/-- Modelled from the spec: evaluate every candidate under a fallible
objective adapter, propagating the first evaluation error unchanged. -/
def evalPopE {ε : Type} (fE : Candidate → Except ε ℚ) : Population → Except ε (List (Candidate × ℚ))
  | [] => .ok []
  | c :: rest =>
    match fE c with
    | .error e => .error e
    | .ok v =>
      match evalPopE fE rest with
      | .error e => .error e
      | .ok pairs => .ok ((c, v) :: pairs)

/-- Modelled from the spec: the per-generation loop under a fallible
objective adapter; an evaluation error propagates unchanged, with no retry
and no partial-result recovery. -/
def optimizeLoopE {ε : Type} (cfg : Config) (fE : Candidate → Except ε ℚ) (o : Oracle) :
    ℕ → ℕ → Population → Option (Candidate × ℚ) → Option ℚ → Except ε RunOutcome
  | remaining, gensDone, pop, record, prevF =>
    (evalPopE fE pop).bind (fun pairs =>
      let best := updateRecord record (bestOfPairs pairs)
      let g := gensDone + 1
      match remaining with
      | 0 => .ok ⟨best.1, best.2, g, .maxGenerations⟩
      | 1 => .ok ⟨best.1, best.2, g, .maxGenerations⟩
      | r + 2 =>
        if tolTriggered cfg best.2 then .ok ⟨best.1, best.2, g, .toleranceReached⟩
        else if objTriggered cfg prevF best.2 then
          .ok ⟨best.1, best.2, g, .objectiveChangeSmall⟩
        else optimizeLoopE cfg fE o (r + 1) g (generationStep cfg o g pairs)
          (some best) (some best.2))

/-- Modelled from the spec: the exposed Optimize operation under a fallible
objective adapter. -/
def OptimizeE {ε : Type} (cfg : Config) (fE : Candidate → Except ε ℚ) (o : Oracle)
    (pop : Population) : Except ε RunOutcome :=
  optimizeLoopE cfg fE o cfg.maxGenerations 0 pop none none

/-- Objective adapter that fails on every candidate, used for concrete
runs of the fallible optimizer. -/
def failAdapter : Candidate → Except Unit ℚ := fun _ => .error ()

/-- All-zero oracle used for concrete runs: every parent draw is 0, no
parameter ever mutates, every noise draw is 0. -/
def zeroOracle : Oracle :=
  ⟨fun _ _ => 0, fun _ _ _ => false, fun _ _ _ => 0⟩

/-- Concrete configuration used for concrete runs: population 4, up to 10
generations, no mutation, all candidates selected, tolerance 0,
objectiveChange 0. -/
def smallConfig : Config := ⟨4, 10, 0, 0, 1, 0, 0⟩

/-- Concrete valid configuration with maxGenerations = 0. -/
def zeroGenConfig : Config := ⟨4, 0, 0, 0, 1, -1, -1⟩

/-- Concrete valid configuration whose objectiveChange check is disabled
(negative), used for a run that exhausts its generation budget. -/
def constRunConfig : Config := ⟨4, 3, 0, 0, 1, 0, -1⟩

/-- Concrete population of four one-parameter candidates. -/
def pop4 : Population := [[0], [1], [2], [3]]

/- Helper lemmas about the embedding. -/

lemma ceilMulNat_eq (q : ℚ) (n : ℕ) : ceilMulNat q n = ⌈q * (n : ℚ)⌉ := by
  have hden : ((q.den : ℕ) : ℚ) ≠ 0 := by positivity
  have key : q * ((q.den : ℕ) : ℚ) = ((q.num : ℤ) : ℚ) := by
    nth_rewrite 1 [← Rat.num_div_den q]
    rw [div_mul_cancel₀ _ hden]
  have h1 : -(q * (n : ℚ)) = ((-(q.num * n) : ℤ) : ℚ) / ((q.den : ℕ) : ℚ) := by
    rw [eq_div_iff hden, neg_mul, mul_right_comm, key]
    push_cast
    ring
  have h2 : ⌈q * (n : ℚ)⌉ = -⌊-(q * (n : ℚ))⌋ := by
    rw [← Int.ceil_neg, neg_neg]
  rw [h2, h1, Rat.floor_intCast_div_natCast, ceilMulNat]

lemma numParents_eq_ceil (cfg : Config) :
    numParents cfg = max 2 (Int.toNat ⌈cfg.selectPercent * (cfg.populationSize : ℚ)⌉) := by
  rw [numParents, ceilMulNat_eq]

lemma two_le_numParents (cfg : Config) : 2 ≤ numParents cfg :=
  le_max_left _ _

lemma numParents_pos (cfg : Config) : 0 < numParents cfg :=
  lt_of_lt_of_le two_pos (two_le_numParents cfg)

lemma numParents_le (cfg : Config) (hv : cfg.Valid) :
    numParents cfg ≤ cfg.populationSize := by
  obtain ⟨hps, -, -, -, hsp1, -⟩ := hv
  rw [numParents_eq_ceil]
  apply max_le (by omega)
  have h1 : ⌈cfg.selectPercent * (cfg.populationSize : ℚ)⌉ ≤ (cfg.populationSize : ℤ) := by
    apply Int.ceil_le.mpr
    push_cast
    calc cfg.selectPercent * (cfg.populationSize : ℚ)
        ≤ 1 * (cfg.populationSize : ℚ) :=
          mul_le_mul_of_nonneg_right hsp1 (by positivity)
      _ = (cfg.populationSize : ℚ) := one_mul _
  exact Int.toNat_le.mpr h1

lemma rankPairs_perm (pairs : List (Candidate × ℚ)) : List.Perm (rankPairs pairs) pairs :=
  List.perm_insertionSort _ _

lemma mem_rankPairs {p : Candidate × ℚ} {pairs : List (Candidate × ℚ)} :
    p ∈ rankPairs pairs ↔ p ∈ pairs :=
  List.mem_insertionSort _

lemma rankPairs_length (pairs : List (Candidate × ℚ)) :
    (rankPairs pairs).length = pairs.length :=
  List.length_insertionSort _ _

lemma rankPairs_sorted (pairs : List (Candidate × ℚ)) :
    List.Sorted fitnessOrder (rankPairs pairs) :=
  List.sorted_insertionSort _ _

lemma rankPairs_ne_nil {pairs : List (Candidate × ℚ)} (h : pairs ≠ []) :
    rankPairs pairs ≠ [] := by
  intro hc
  apply h
  have := rankPairs_length pairs
  rw [hc] at this
  exact List.length_eq_zero.mp this.symm

lemma bestOfPairs_mem {pairs : List (Candidate × ℚ)} (h : pairs ≠ []) :
    bestOfPairs pairs ∈ pairs := by
  cases hr : rankPairs pairs with
  | nil => exact absurd hr (rankPairs_ne_nil h)
  | cons a t =>
    have ha : a ∈ rankPairs pairs := by rw [hr]; exact List.mem_cons_self a t
    rw [bestOfPairs, hr]
    exact mem_rankPairs.mp ha

lemma bestOfPairs_le {pairs : List (Candidate × ℚ)} {p : Candidate × ℚ}
    (hp : p ∈ pairs) : (bestOfPairs pairs).2 ≤ p.2 := by
  have hmem : p ∈ rankPairs pairs := mem_rankPairs.mpr hp
  cases hr : rankPairs pairs with
  | nil => rw [hr] at hmem; cases hmem
  | cons a t =>
    rw [bestOfPairs, hr]
    rw [hr] at hmem
    rcases List.mem_cons.mp hmem with h | h
    · rw [h]
    · have hs := rankPairs_sorted pairs
      rw [hr] at hs
      exact (List.sorted_cons.mp hs).1 p h

lemma evalPop_length (f : Candidate → ℚ) (pop : Population) :
    (evalPop f pop).length = pop.length :=
  List.length_map _ _

lemma evalPop_ne_nil (f : Candidate → ℚ) {pop : Population} (h : pop ≠ []) :
    evalPop f pop ≠ [] := by
  intro hc
  apply h
  have := evalPop_length f pop
  rw [hc] at this
  exact List.length_eq_zero.mp this.symm

lemma mem_evalPop_self {c : Candidate} {pop : Population} (f : Candidate → ℚ)
    (h : c ∈ pop) : (c, f c) ∈ evalPop f pop :=
  List.mem_map_of_mem _ h

lemma of_mem_evalPop {f : Candidate → ℚ} {pop : Population} {p : Candidate × ℚ}
    (h : p ∈ evalPop f pop) : p.1 ∈ pop ∧ p.2 = f p.1 := by
  rcases List.mem_map.mp h with ⟨c, hc, rfl⟩
  exact ⟨hc, rfl⟩

lemma minFitness_le {f : Candidate → ℚ} {pop : Population} {c : Candidate}
    (h : c ∈ pop) : minFitness f pop ≤ f c :=
  bestOfPairs_le (mem_evalPop_self f h)

lemma selectParents_length (cfg : Config) (pairs : List (Candidate × ℚ)) :
    (selectParents cfg pairs).length = min (numParents cfg) pairs.length := by
  rw [selectParents, List.length_map, List.length_take, rankPairs_length]

lemma selectParents_ne_nil (cfg : Config) {pairs : List (Candidate × ℚ)}
    (h : pairs ≠ []) : selectParents cfg pairs ≠ [] := by
  have h1 : 0 < (selectParents cfg pairs).length := by
    rw [selectParents_length]
    exact lt_min (numParents_pos cfg) (List.length_pos.mpr h)
  exact List.ne_nil_of_length_pos h1

lemma of_mem_selectParents {cfg : Config} {pairs : List (Candidate × ℚ)}
    {c : Candidate} (h : c ∈ selectParents cfg pairs) : ∃ p ∈ pairs, p.1 = c := by
  rcases List.mem_map.mp h with ⟨p, hp, rfl⟩
  exact ⟨p, mem_rankPairs.mp (List.mem_of_mem_take hp), rfl⟩

lemma bestOfPairs_fst_mem_selectParents (cfg : Config)
    {pairs : List (Candidate × ℚ)} (h : pairs ≠ []) :
    (bestOfPairs pairs).1 ∈ selectParents cfg pairs := by
  cases hr : rankPairs pairs with
  | nil => exact absurd hr (rankPairs_ne_nil h)
  | cons a t =>
    obtain ⟨k, hk⟩ := Nat.exists_eq_succ_of_ne_zero (Nat.pos_iff_ne_zero.mp (numParents_pos cfg))
    rw [bestOfPairs, hr, selectParents, hr, hk, List.take_succ_cons]
    exact List.mem_map_of_mem _ (List.mem_cons_self a _)

lemma generationStep_length (cfg : Config) (o : Oracle) (g : ℕ)
    (pairs : List (Candidate × ℚ)) :
    (generationStep cfg o g pairs).length
      = (selectParents cfg pairs).length
        + (cfg.populationSize - (selectParents cfg pairs).length) := by
  simp [generationStep, regenerate, List.length_append, List.length_map,
    List.length_range]

lemma generationStep_ne_nil (cfg : Config) (o : Oracle) (g : ℕ)
    {pairs : List (Candidate × ℚ)} (h : pairs ≠ []) :
    generationStep cfg o g pairs ≠ [] := by
  rw [generationStep]
  intro hc
  exact selectParents_ne_nil cfg h (List.append_eq_nil.mp hc).1

lemma mem_generationStep {cfg : Config} {o : Oracle} {g : ℕ}
    {pairs : List (Candidate × ℚ)} {c : Candidate}
    (h : c ∈ generationStep cfg o g pairs) :
    c ∈ selectParents cfg pairs
      ∨ ∃ s, c = makeChild o g s (selectParents cfg pairs) := by
  rcases List.mem_append.mp h with h | h
  · exact Or.inl h
  · rcases List.mem_map.mp h with ⟨s, -, rfl⟩
    exact Or.inr ⟨s, rfl⟩

lemma mutateParams_length (o : Oracle) (g s : ℕ) :
    ∀ (j : ℕ) (c : List ℚ), (mutateParams o g s j c).length = c.length := by
  intro j c
  induction c generalizing j with
  | nil => rfl
  | cons x xs ih => simp [mutateParams, ih]

lemma mutateCandidate_length (o : Oracle) (g s : ℕ) (c : Candidate) :
    (mutateCandidate o g s c).length = c.length :=
  mutateParams_length o g s 0 c

lemma mutateParams_getD (o : Oracle) (g s : ℕ) :
    ∀ (c : List ℚ) (j i : ℕ), i < c.length →
      (mutateParams o g s j c).getD i 0
        = if o.mutateP g s (j + i) then c.getD i 0 + o.noise g s (j + i)
          else c.getD i 0 := by
  intro c
  induction c with
  | nil => intro j i h; cases h
  | cons x xs ih =>
    intro j i h
    cases i with
    | zero => simp [mutateParams]
    | succ i =>
      have hi : i < xs.length := by simpa using h
      have := ih (j + 1) i hi
      simp only [mutateParams, List.getD_cons_succ, this]
      have harg : j + 1 + i = j + (i + 1) := by omega
      rw [harg]

lemma getD_mod_mem {l : Population} (h : l ≠ []) (k : ℕ) :
    l.getD (k % l.length) [] ∈ l := by
  have hlen : 0 < l.length := List.length_pos.mpr h
  have hlt : k % l.length < l.length := Nat.mod_lt _ hlen
  rw [List.getD_eq_getElem _ _ hlt]
  exact List.getElem_mem hlt

lemma makeChild_from_parent (o : Oracle) (g s : ℕ) {parents : Population}
    (h : parents ≠ []) :
    ∃ p ∈ parents, makeChild o g s parents = mutateCandidate o g s p :=
  ⟨_, getD_mod_mem h _, rfl⟩

/- Unfolding equations of the optimize loop. -/

lemma optimizeLoop_zero (cfg : Config) (f : Candidate → ℚ) (o : Oracle)
    (gensDone : ℕ) (pop : Population) (record : Option (Candidate × ℚ))
    (prevF : Option ℚ) :
    optimizeLoop cfg f o 0 gensDone pop record prevF =
      ⟨(updateRecord record (bestOfPairs (evalPop f pop))).1,
       (updateRecord record (bestOfPairs (evalPop f pop))).2,
       gensDone + 1, .maxGenerations⟩ := rfl

lemma optimizeLoop_one (cfg : Config) (f : Candidate → ℚ) (o : Oracle)
    (gensDone : ℕ) (pop : Population) (record : Option (Candidate × ℚ))
    (prevF : Option ℚ) :
    optimizeLoop cfg f o 1 gensDone pop record prevF =
      ⟨(updateRecord record (bestOfPairs (evalPop f pop))).1,
       (updateRecord record (bestOfPairs (evalPop f pop))).2,
       gensDone + 1, .maxGenerations⟩ := rfl

lemma optimizeLoop_step (cfg : Config) (f : Candidate → ℚ) (o : Oracle)
    (r gensDone : ℕ) (pop : Population) (record : Option (Candidate × ℚ))
    (prevF : Option ℚ) :
    optimizeLoop cfg f o (r + 2) gensDone pop record prevF =
      (if tolTriggered cfg (updateRecord record (bestOfPairs (evalPop f pop))).2 then
        ⟨(updateRecord record (bestOfPairs (evalPop f pop))).1,
         (updateRecord record (bestOfPairs (evalPop f pop))).2,
         gensDone + 1, .toleranceReached⟩
      else if objTriggered cfg prevF
          (updateRecord record (bestOfPairs (evalPop f pop))).2 then
        ⟨(updateRecord record (bestOfPairs (evalPop f pop))).1,
         (updateRecord record (bestOfPairs (evalPop f pop))).2,
         gensDone + 1, .objectiveChangeSmall⟩
      else optimizeLoop cfg f o (r + 1) (gensDone + 1)
        (generationStep cfg o (gensDone + 1) (evalPop f pop))
        (some (updateRecord record (bestOfPairs (evalPop f pop))))
        (some (updateRecord record (bestOfPairs (evalPop f pop))).2)) := rfl

lemma updateRecord_le (record : Option (Candidate × ℚ)) (gb : Candidate × ℚ)
    (r : Candidate × ℚ) (h : record = some r) :
    (updateRecord record gb).2 ≤ r.2 := by
  subst h
  rw [updateRecord]
  split
  · exact le_of_lt (by assumption)
  · exact le_rfl

lemma updateRecord_none (gb : Candidate × ℚ) : updateRecord none gb = gb := rfl

/-- The final recorded best fitness of a run is at most the recorded best
fitness at any intermediate state of the loop. -/
lemma optimizeLoop_bestFitness_le (cfg : Config) (f : Candidate → ℚ) (o : Oracle) :
    ∀ (remaining gensDone : ℕ) (pop : Population) (r : Candidate × ℚ)
      (prevF : Option ℚ),
      (optimizeLoop cfg f o remaining gensDone pop (some r) prevF).bestFitness ≤ r.2 := by
  intro remaining
  induction remaining with
  | zero =>
    intro gensDone pop r prevF
    rw [optimizeLoop_zero]
    exact updateRecord_le _ _ r rfl
  | succ n ih =>
    intro gensDone pop r prevF
    cases n with
    | zero =>
      rw [optimizeLoop_one]
      exact updateRecord_le _ _ r rfl
    | succ m =>
      rw [optimizeLoop_step]
      split
      · exact updateRecord_le _ _ r rfl
      · split
        · exact updateRecord_le _ _ r rfl
        · exact le_trans (ih _ _ _ _) (updateRecord_le _ _ r rfl)

/-- The number of generations a loop actually executes is bounded by the
remaining generation budget (at least one generation always runs). -/
lemma optimizeLoop_generations_le (cfg : Config) (f : Candidate → ℚ) (o : Oracle) :
    ∀ (remaining gensDone : ℕ) (pop : Population)
      (record : Option (Candidate × ℚ)) (prevF : Option ℚ),
      (optimizeLoop cfg f o remaining gensDone pop record prevF).generations
        ≤ gensDone + max 1 remaining := by
  intro remaining
  induction remaining with
  | zero =>
    intro gensDone pop record prevF
    rw [optimizeLoop_zero]
    dsimp only
    omega
  | succ n ih =>
    intro gensDone pop record prevF
    cases n with
    | zero =>
      rw [optimizeLoop_one]
      dsimp only
      omega
    | succ m =>
      rw [optimizeLoop_step]
      split
      · dsimp only
        omega
      · split
        · dsimp only
          omega
        · have := ih (gensDone + 1) (generationStep cfg o (gensDone + 1) (evalPop f pop))
            (some (updateRecord record (bestOfPairs (evalPop f pop))))
            (some (updateRecord record (bestOfPairs (evalPop f pop))).2)
          omega

/-- A run never reports the tolerance stop reason when tolerance is
negative (the tolerance check is disabled). -/
lemma optimizeLoop_reason_ne_tol (cfg : Config) (f : Candidate → ℚ) (o : Oracle)
    (hneg : cfg.tolerance < 0) :
    ∀ (remaining gensDone : ℕ) (pop : Population)
      (record : Option (Candidate × ℚ)) (prevF : Option ℚ),
      (optimizeLoop cfg f o remaining gensDone pop record prevF).reason
        ≠ .toleranceReached := by
  intro remaining
  induction remaining with
  | zero =>
    intro gensDone pop record prevF
    rw [optimizeLoop_zero]
    intro hc
    cases hc
  | succ n ih =>
    intro gensDone pop record prevF
    cases n with
    | zero =>
      rw [optimizeLoop_one]
      intro hc
      cases hc
    | succ m =>
      rw [optimizeLoop_step]
      split
      · rename_i htol
        rw [tolTriggered, Bool.and_eq_true, decide_eq_true_eq] at htol
        exact absurd htol.1 (not_le.mpr hneg)
      · split
        · intro hc
          cases hc
        · exact ih _ _ _ _

/-- Evaluating a population under an everywhere-succeeding adapter is the
successful evaluation of the pure objective. -/
lemma evalPopE_ok {ε : Type} (f : Candidate → ℚ) :
    ∀ pop : Population,
      evalPopE (ε := ε) (fun c => .ok (f c)) pop = .ok (evalPop f pop) := by
  intro pop
  induction pop with
  | nil => rfl
  | cons c rest ih => simp [evalPopE, ih, evalPop]

lemma optimizeLoopE_zero {ε : Type} (cfg : Config) (fE : Candidate → Except ε ℚ)
    (o : Oracle) (gensDone : ℕ) (pop : Population)
    (record : Option (Candidate × ℚ)) (prevF : Option ℚ) :
    optimizeLoopE cfg fE o 0 gensDone pop record prevF =
      (evalPopE fE pop).bind (fun pairs =>
        .ok ⟨(updateRecord record (bestOfPairs pairs)).1,
          (updateRecord record (bestOfPairs pairs)).2,
          gensDone + 1, .maxGenerations⟩) := rfl

lemma optimizeLoopE_one {ε : Type} (cfg : Config) (fE : Candidate → Except ε ℚ)
    (o : Oracle) (gensDone : ℕ) (pop : Population)
    (record : Option (Candidate × ℚ)) (prevF : Option ℚ) :
    optimizeLoopE cfg fE o 1 gensDone pop record prevF =
      (evalPopE fE pop).bind (fun pairs =>
        .ok ⟨(updateRecord record (bestOfPairs pairs)).1,
          (updateRecord record (bestOfPairs pairs)).2,
          gensDone + 1, .maxGenerations⟩) := rfl

lemma optimizeLoopE_step {ε : Type} (cfg : Config) (fE : Candidate → Except ε ℚ)
    (o : Oracle) (r gensDone : ℕ) (pop : Population)
    (record : Option (Candidate × ℚ)) (prevF : Option ℚ) :
    optimizeLoopE cfg fE o (r + 2) gensDone pop record prevF =
      (evalPopE fE pop).bind (fun pairs =>
        if tolTriggered cfg (updateRecord record (bestOfPairs pairs)).2 then
          .ok ⟨(updateRecord record (bestOfPairs pairs)).1,
            (updateRecord record (bestOfPairs pairs)).2,
            gensDone + 1, .toleranceReached⟩
        else if objTriggered cfg prevF (updateRecord record (bestOfPairs pairs)).2 then
          .ok ⟨(updateRecord record (bestOfPairs pairs)).1,
            (updateRecord record (bestOfPairs pairs)).2,
            gensDone + 1, .objectiveChangeSmall⟩
        else optimizeLoopE cfg fE o (r + 1) (gensDone + 1)
          (generationStep cfg o (gensDone + 1) pairs)
          (some (updateRecord record (bestOfPairs pairs)))
          (some (updateRecord record (bestOfPairs pairs)).2)) := rfl

/-- The fallible loop under an everywhere-succeeding adapter computes
exactly the pure loop, wrapped in ok. -/
lemma optimizeLoopE_ok {ε : Type} (cfg : Config) (f : Candidate → ℚ) (o : Oracle) :
    ∀ (remaining gensDone : ℕ) (pop : Population)
      (record : Option (Candidate × ℚ)) (prevF : Option ℚ),
      optimizeLoopE (ε := ε) cfg (fun c => .ok (f c)) o remaining gensDone pop record prevF
        = .ok (optimizeLoop cfg f o remaining gensDone pop record prevF) := by
  intro remaining
  induction remaining with
  | zero =>
    intro gensDone pop record prevF
    rw [optimizeLoop_zero, optimizeLoopE_zero, evalPopE_ok]
    rfl
  | succ n ih =>
    intro gensDone pop record prevF
    cases n with
    | zero =>
      rw [optimizeLoop_one, optimizeLoopE_one, evalPopE_ok]
      rfl
    | succ m =>
      rw [optimizeLoop_step, optimizeLoopE_step, evalPopE_ok]
      show (if tolTriggered cfg _ then _ else _) = _
      split
      · rfl
      · split
        · rfl
        · exact ih _ _ _ _

/-- A failing evaluation of the current population makes the fallible loop
return that error unchanged. -/
lemma optimizeLoopE_error {ε : Type} (cfg : Config) (fE : Candidate → Except ε ℚ)
    (o : Oracle) (remaining gensDone : ℕ) (pop : Population)
    (record : Option (Candidate × ℚ)) (prevF : Option ℚ) (e : ε)
    (h : evalPopE fE pop = .error e) :
    optimizeLoopE cfg fE o remaining gensDone pop record prevF = .error e := by
  cases remaining with
  | zero => rw [optimizeLoopE_zero, h]; rfl
  | succ n =>
    cases n with
    | zero => rw [optimizeLoopE_one, h]; rfl
    | succ m => rw [optimizeLoopE_step, h]; rfl

/-- Under a constant objective the best pair of any nonempty evaluated
population carries the constant value. -/
lemma bestOfPairs_const {c : ℚ} {pop : Population} (h : pop ≠ []) :
    (bestOfPairs (evalPop (fun _ => c) pop)).2 = c := by
  have hb := bestOfPairs_mem (evalPop_ne_nil (fun _ => c) h)
  exact (of_mem_evalPop hb).2

/-- Under a constant objective, with the tolerance below the constant and
the objectiveChange check disabled, the loop always exhausts its whole
generation budget and stops with the maxGenerations reason. -/
lemma optimizeLoop_const (cfg : Config) (o : Oracle) (c : ℚ)
    (htol : cfg.tolerance < c) (hoc : cfg.objectiveChange < 0) :
    ∀ (remaining gensDone : ℕ) (pop : Population)
      (record : Option (Candidate × ℚ)) (prevF : Option ℚ),
      pop ≠ [] →
      (record = none ∨ ∃ b, record = some (b, c)) →
      (optimizeLoop cfg (fun _ => c) o remaining gensDone pop record prevF).generations
          = gensDone + max 1 remaining
        ∧ (optimizeLoop cfg (fun _ => c) o remaining gensDone pop record prevF).reason
          = .maxGenerations := by
  intro remaining
  induction remaining with
  | zero =>
    intro gensDone pop record prevF _ _
    rw [optimizeLoop_zero]
    exact ⟨rfl, rfl⟩
  | succ n ih =>
    intro gensDone pop record prevF hne hrec
    have hbest : (updateRecord record (bestOfPairs (evalPop (fun _ => c) pop))).2 = c := by
      rcases hrec with h | ⟨b, h⟩ <;> subst h
      · rw [updateRecord_none]
        exact bestOfPairs_const hne
      · rw [updateRecord]
        have hc2 := bestOfPairs_const (c := c) hne
        split
        · exact hc2
        · rfl
    cases n with
    | zero =>
      rw [optimizeLoop_one]
      exact ⟨rfl, rfl⟩
    | succ m =>
      rw [optimizeLoop_step]
      have htf : tolTriggered cfg
          (updateRecord record (bestOfPairs (evalPop (fun _ => c) pop))).2 = false := by
        rw [hbest, tolTriggered]
        rcases le_or_lt 0 cfg.tolerance with h0 | h0
        · simp [not_le.mpr htol]
        · simp [not_le.mpr h0]
      have hof : objTriggered cfg prevF
          (updateRecord record (bestOfPairs (evalPop (fun _ => c) pop))).2 = false := by
        cases prevF with
        | none => rfl
        | some p => simp [objTriggered, not_le.mpr hoc]
      rw [htf, hof]
      simp only [Bool.false_eq_true, if_false]
      have hBpair : updateRecord record (bestOfPairs (evalPop (fun _ => c) pop))
          = ((updateRecord record (bestOfPairs (evalPop (fun _ => c) pop))).1, c) :=
        Prod.ext_iff.mpr ⟨rfl, hbest⟩
      have hnext := ih (gensDone + 1)
        (generationStep cfg o (gensDone + 1) (evalPop (fun _ => c) pop))
        (some (updateRecord record (bestOfPairs (evalPop (fun _ => c) pop))))
        (some (updateRecord record (bestOfPairs (evalPop (fun _ => c) pop))).2)
        (generationStep_ne_nil cfg o (gensDone + 1) (evalPop_ne_nil _ hne))
        (Or.inr ⟨(updateRecord record (bestOfPairs (evalPop (fun _ => c) pop))).1,
          congrArg some hBpair⟩)
      refine ⟨?_, hnext.2⟩
      rw [hnext.1]
      omega

/-- Every selected parent of an evaluated population is one of its
candidates. -/
lemma selectParents_subset_pop {cfg : Config} {f : Candidate → ℚ}
    {pop : Population} {c : Candidate}
    (h : c ∈ selectParents cfg (evalPop f pop)) : c ∈ pop := by
  rcases of_mem_selectParents h with ⟨p, hp, rfl⟩
  exact (of_mem_evalPop hp).1

/-- A generation step preserves the dimensionality of every candidate. -/
lemma generationStep_lengths {cfg : Config} {o : Oracle} {g : ℕ}
    {f : Candidate → ℚ} {pop : Population} {d : ℕ} (hne : pop ≠ [])
    (hl : ∀ c ∈ pop, c.length = d) :
    ∀ c ∈ generationStep cfg o g (evalPop f pop), c.length = d := by
  intro c hc
  rcases mem_generationStep hc with h | ⟨s, rfl⟩
  · exact hl c (selectParents_subset_pop h)
  · obtain ⟨p, hp, heq⟩ := makeChild_from_parent o g s
      (selectParents_ne_nil cfg (evalPop_ne_nil f hne))
    rw [heq, mutateCandidate_length]
    exact hl p (selectParents_subset_pop hp)

/-- The best candidate returned by a run has the common dimensionality of
the population it was drawn from. -/
lemma optimizeLoop_bestParams_length (cfg : Config) (f : Candidate → ℚ)
    (o : Oracle) (d : ℕ) :
    ∀ (remaining gensDone : ℕ) (pop : Population)
      (record : Option (Candidate × ℚ)) (prevF : Option ℚ),
      pop ≠ [] → (∀ c ∈ pop, c.length = d) →
      (∀ r, record = some r → r.1.length = d) →
      (optimizeLoop cfg f o remaining gensDone pop record prevF).bestParams.length
        = d := by
  have hbest : ∀ (pop : Population) (record : Option (Candidate × ℚ)),
      pop ≠ [] → (∀ c ∈ pop, c.length = d) →
      (∀ r, record = some r → r.1.length = d) →
      (updateRecord record (bestOfPairs (evalPop f pop))).1.length = d := by
    intro pop record hne hl hr
    have hgb : (bestOfPairs (evalPop f pop)).1.length = d := by
      have hm := bestOfPairs_mem (evalPop_ne_nil f hne)
      exact hl _ (of_mem_evalPop hm).1
    cases record with
    | none => rw [updateRecord_none]; exact hgb
    | some r =>
      rw [updateRecord]
      split
      · exact hgb
      · exact hr r rfl
  intro remaining
  induction remaining with
  | zero =>
    intro gensDone pop record prevF hne hl hr
    rw [optimizeLoop_zero]
    exact hbest pop record hne hl hr
  | succ n ih =>
    intro gensDone pop record prevF hne hl hr
    cases n with
    | zero =>
      rw [optimizeLoop_one]
      exact hbest pop record hne hl hr
    | succ m =>
      rw [optimizeLoop_step]
      split
      · exact hbest pop record hne hl hr
      · split
        · exact hbest pop record hne hl hr
        · exact ih _ _ _ _
            (generationStep_ne_nil cfg o _ (evalPop_ne_nil f hne))
            (generationStep_lengths hne hl)
            (fun r hrs => by
              rw [Option.some_inj.mp hrs.symm] at *
              exact hbest pop record hne hl hr)

/-- Every candidate of the initial population has the dimensionality the
population was created with. -/
lemma initPopulation_lengths (cfg : Config) (init : ℕ → ℕ → ℚ) (d : ℕ) :
    ∀ c ∈ initPopulation cfg init d, c.length = d := by
  intro c hc
  rcases List.mem_map.mp hc with ⟨i, -, rfl⟩
  rw [List.length_map, List.length_range]

lemma initPopulation_length (cfg : Config) (init : ℕ → ℕ → ℚ) (d : ℕ) :
    (initPopulation cfg init d).length = cfg.populationSize := by
  rw [initPopulation, List.length_map, List.length_range]

/- Claim theorems. -/

section ClaimTheorems

attribute [local semireducible] Rat.add Rat.sub Rat.mul

/-- C1 (counterexample): the claim says mutation noise is drawn from the
interval [-mutationSize, mutationSize], but the tutorial documents the
noise range as between 0 and mutationSize; under the documented default
mutationSize = 1/50, the noise value -1/100 lies in the claimed interval
yet outside the documented range. -/
theorem cne_c1_mutation_interval_cex :
    specMutationNoiseValid defaultConfig (-(1/100))
    ∧ ¬ mutationNoiseValid defaultConfig (-(1/100)) := by
  constructor
  · constructor
    · show -defaultConfig.mutationSize ≤ -(1/100)
      rw [defaultConfig]
      norm_num
    · show -(1/100 : ℚ) ≤ defaultConfig.mutationSize
      rw [defaultConfig]
      norm_num
  · intro hcon
    have h0 : (0:ℚ) ≤ -(1/100) := hcon.1
    norm_num at h0

/-- C1 (amended): in each generation, the parents carry over unmodified
into the leading slots of the next population, and every regenerated slot
is a copy of a parent from the selected set mutated parameter by
parameter, each parameter either left unchanged or increased by a noise
value drawn from the documented range [0, mutationSize] (the claim's
interval [-mutationSize, mutationSize] is corrected to the tutorial's
range between 0 and mutationSize; which parameters mutate and which parent
is copied are the oracle's random draws). -/
theorem cne_c1_generation_structure (cfg : Config) (o : Oracle) (g : ℕ)
    (pairs : List (Candidate × ℚ)) (hov : Oracle.Valid cfg o) (hne : pairs ≠ []) :
    (generationStep cfg o g pairs).take (selectParents cfg pairs).length
        = selectParents cfg pairs
    ∧ ∀ s, s < cfg.populationSize - (selectParents cfg pairs).length →
        ∃ p ∈ selectParents cfg pairs,
          (generationStep cfg o g pairs).getD
              ((selectParents cfg pairs).length + s) []
            = mutateCandidate o g s p
          ∧ (mutateCandidate o g s p).length = p.length
          ∧ ∀ j, j < p.length →
              (mutateCandidate o g s p).getD j 0 = p.getD j 0
              ∨ (p.getD j 0 ≤ (mutateCandidate o g s p).getD j 0
                 ∧ (mutateCandidate o g s p).getD j 0
                    ≤ p.getD j 0 + cfg.mutationSize) := by
  constructor
  · show (selectParents cfg pairs
        ++ regenerate o g (selectParents cfg pairs) _).take _ = _
    exact List.take_left _ _
  · intro s hs
    have hpne : selectParents cfg pairs ≠ [] := selectParents_ne_nil cfg hne
    refine ⟨(selectParents cfg pairs).getD
        (o.parent g s % (selectParents cfg pairs).length) [],
      getD_mod_mem hpne _, ?_, mutateCandidate_length o g s _, ?_⟩
    · have hgs : generationStep cfg o g pairs
          = selectParents cfg pairs
            ++ regenerate o g (selectParents cfg pairs)
              (cfg.populationSize - (selectParents cfg pairs).length) := rfl
      have hidx : (selectParents cfg pairs).length + s
          < (selectParents cfg pairs
            ++ regenerate o g (selectParents cfg pairs)
              (cfg.populationSize - (selectParents cfg pairs).length)).length := by
        rw [← hgs, generationStep_length]
        omega
      rw [hgs, List.getD_eq_getElem _ _ hidx,
        List.getElem_append_right (Nat.le_add_right _ _)]
      have hs2 : (selectParents cfg pairs).length + s
          - (selectParents cfg pairs).length = s := by omega
      simp only [hs2, regenerate]
      rw [List.getElem_map, List.getElem_range]
      rfl
    · intro j hj
      have hmut := mutateParams_getD o g s _ 0 j hj
      rw [Nat.zero_add] at hmut
      rw [mutateCandidate, hmut]
      cases hb : o.mutateP g s j with
      | false => exact Or.inl (by rw [if_neg (by simp [hb])])
      | true =>
        refine Or.inr ?_
        rw [if_pos (by simp [hb])]
        obtain ⟨hn0, hn1⟩ := hov g s j
        exact ⟨le_add_of_nonneg_right hn0, add_le_add_left hn1 _⟩

/-- C1 (witness): the amended generation-structure theorem applied to a
concrete configuration, oracle and evaluated population. -/
theorem cne_c1_generation_structure_witness :
    Oracle.Valid smallConfig zeroOracle
    ∧ ([([0], (5:ℚ))] : List (Candidate × ℚ)) ≠ []
    ∧ ((generationStep smallConfig zeroOracle 1 [([0], (5:ℚ))]).take
          (selectParents smallConfig [([0], (5:ℚ))]).length
        = selectParents smallConfig [([0], (5:ℚ))]
      ∧ ∀ s, s < smallConfig.populationSize
            - (selectParents smallConfig [([0], (5:ℚ))]).length →
          ∃ p ∈ selectParents smallConfig [([0], (5:ℚ))],
            (generationStep smallConfig zeroOracle 1 [([0], (5:ℚ))]).getD
                ((selectParents smallConfig [([0], (5:ℚ))]).length + s) []
              = mutateCandidate zeroOracle 1 s p
            ∧ (mutateCandidate zeroOracle 1 s p).length = p.length
            ∧ ∀ j, j < p.length →
                (mutateCandidate zeroOracle 1 s p).getD j 0 = p.getD j 0
                ∨ (p.getD j 0 ≤ (mutateCandidate zeroOracle 1 s p).getD j 0
                   ∧ (mutateCandidate zeroOracle 1 s p).getD j 0
                      ≤ p.getD j 0 + smallConfig.mutationSize)) :=
  ⟨fun _ _ _ => ⟨le_rfl, le_rfl⟩, by decide,
    cne_c1_generation_structure smallConfig zeroOracle 1 [([0], (5:ℚ))]
      (fun _ _ _ => ⟨le_rfl, le_rfl⟩) (by decide)⟩

/-- C2: construction with populationSize 3 (indeed with any population
size below 4) fails with ConfigurationError, while construction with
populationSize 4 and otherwise-valid hyperparameters succeeds, returning
the configuration; validation happens in `construct`, before any
optimization runs. -/
theorem cne_c2_construct_populationSize (ps maxGen : ℕ)
    (mp ms sp tol oc : ℚ) (hmp0 : 0 ≤ mp) (hmp1 : mp ≤ 1)
    (hsp0 : 0 ≤ sp) (hsp1 : sp ≤ 1) (hms : 0 ≤ ms) :
    construct 3 maxGen mp ms sp tol oc = .error .ConfigurationError
    ∧ (ps < 4 → construct ps maxGen mp ms sp tol oc = .error .ConfigurationError)
    ∧ construct 4 maxGen mp ms sp tol oc
        = .ok ⟨4, maxGen, mp, ms, sp, tol, oc⟩ := by
  refine ⟨?_, ?_, ?_⟩
  · rw [construct, if_pos (by norm_num)]
  · intro h
    rw [construct, if_pos h]
  · rw [construct, if_neg (by omega),
      if_neg (by push_neg; exact ⟨hmp0, hmp1⟩),
      if_neg (by push_neg; exact ⟨hsp0, hsp1⟩),
      if_neg (not_lt.mpr hms)]

/-- C2 (witness): the construction theorem applied at concrete
hyperparameters. -/
theorem cne_c2_construct_populationSize_witness :
    ((0:ℚ) ≤ 0) ∧ ((0:ℚ) ≤ 1)
    ∧ (construct 3 5000 0 0 0 0 0 = .error .ConfigurationError
      ∧ (3 < 4 → construct 3 5000 0 0 0 0 0 = .error .ConfigurationError)
      ∧ construct 4 5000 0 0 0 0 0 = .ok ⟨4, 5000, 0, 0, 0, 0, 0⟩) :=
  ⟨le_rfl, by decide,
    cne_c2_construct_populationSize 3 5000 0 0 0 0 0
      le_rfl (by decide) le_rfl (by decide) le_rfl⟩

/-- C5: for a valid configuration, one generation step on a population of
the configured size again yields exactly populationSize candidates, the
initial population has exactly populationSize candidates, and that size is
at least 4. -/
theorem cne_c5_population_size_invariant (cfg : Config) (f : Candidate → ℚ)
    (o : Oracle) (g : ℕ) (init : ℕ → ℕ → ℚ) (d : ℕ) (pop : Population)
    (hv : cfg.Valid) (hlen : pop.length = cfg.populationSize) :
    (generationStep cfg o g (evalPop f pop)).length = cfg.populationSize
    ∧ (initPopulation cfg init d).length = cfg.populationSize
    ∧ 4 ≤ cfg.populationSize := by
  refine ⟨?_, initPopulation_length cfg init d, hv.1⟩
  rw [generationStep_length, selectParents_length, evalPop_length, hlen,
    min_eq_left (numParents_le cfg hv)]
  have := numParents_le cfg hv
  omega

/-- C5 (witness): the population-size invariant applied to a concrete
configuration and population. -/
theorem cne_c5_population_size_invariant_witness :
    smallConfig.Valid ∧ pop4.length = smallConfig.populationSize
    ∧ ((generationStep smallConfig zeroOracle 1
          (evalPop (fun _ => 5) pop4)).length = smallConfig.populationSize
      ∧ (initPopulation smallConfig (fun _ _ => 0) 1).length
          = smallConfig.populationSize
      ∧ 4 ≤ smallConfig.populationSize) :=
  ⟨by decide, by decide,
    cne_c5_population_size_invariant smallConfig (fun _ => 5) zeroOracle 1
      (fun _ _ => 0) 1 pop4 (by decide) (by decide)⟩

/-- C3 (counterexample): the claim says Optimize terminates at
maxGenerations for a constant objective, but with the (default-style)
nonnegative objectiveChange of `smallConfig` the run on the constant
objective 5 stops after 2 generations although maxGenerations is 10: the
best fitness cannot change between consecutive generations, so the
objectiveChange check fires at the second generation. -/
theorem cne_c3_constant_objective_cex :
    smallConfig.Valid
    ∧ (0:ℚ) ≤ smallConfig.objectiveChange
    ∧ smallConfig.maxGenerations = 10
    ∧ (Optimize smallConfig (fun _ => 5) zeroOracle pop4).generations = 2
    ∧ (Optimize smallConfig (fun _ => 5) zeroOracle pop4).generations
        ≠ smallConfig.maxGenerations := by
  refine ⟨by decide, by decide, rfl, by decide, by decide⟩

/-- C3 (amended): selection always retains exactly
max 2 (ceil(selectPercent * populationSize)) parents; in particular under
a constant objective (where all candidates have identical fitness) the
stable tie-break keeps the parents in current-rank order, so the selected
parents are exactly the first numParents candidates, and the run reaches
maxGenerations provided the objectiveChange check is disabled (negative)
and the tolerance lies below the constant value. -/
theorem cne_c3_selection_and_constant_run (cfg : Config) (o : Oracle) (c : ℚ)
    (pop : Population) (hv : cfg.Valid) (hlen : pop.length = cfg.populationSize)
    (hmg : 1 ≤ cfg.maxGenerations) (htol : cfg.tolerance < c)
    (hoc : cfg.objectiveChange < 0) :
    (selectParents cfg (evalPop (fun _ => c) pop)).length = numParents cfg
    ∧ numParents cfg
        = max 2 (Int.toNat ⌈cfg.selectPercent * (cfg.populationSize : ℚ)⌉)
    ∧ selectParents cfg (evalPop (fun _ => c) pop) = pop.take (numParents cfg)
    ∧ (Optimize cfg (fun _ => c) o pop).generations = cfg.maxGenerations
    ∧ (Optimize cfg (fun _ => c) o pop).reason = .maxGenerations := by
  have hple : numParents cfg ≤ pop.length := by
    rw [hlen]
    exact numParents_le cfg hv
  have hsorted : List.Sorted fitnessOrder (evalPop (fun _ => c) pop) := by
    rw [evalPop, List.Sorted, List.pairwise_map]
    exact List.pairwise_iff_forall_sublist.mpr (fun _ => le_rfl)
  have hrank : rankPairs (evalPop (fun _ => c) pop) = evalPop (fun _ => c) pop :=
    List.Sorted.insertionSort_eq hsorted
  have hne : pop ≠ [] := by
    intro hcon
    rw [hcon] at hlen
    have := hv.1
    simp at hlen
    omega
  refine ⟨?_, numParents_eq_ceil cfg, ?_, ?_, ?_⟩
  · rw [selectParents_length, evalPop_length, hlen,
      min_eq_left (numParents_le cfg hv)]
  · rw [selectParents, hrank, evalPop, ← List.map_take, List.map_map]
    have hid : (Prod.fst ∘ fun c1 : Candidate => (c1, c)) = id := rfl
    rw [hid, List.map_id]
  · rw [Optimize]
    have h := optimizeLoop_const cfg o c htol hoc cfg.maxGenerations 0 pop
      none none hne (Or.inl rfl)
    rw [h.1, max_eq_right hmg, Nat.zero_add]
  · rw [Optimize]
    exact (optimizeLoop_const cfg o c htol hoc cfg.maxGenerations 0 pop
      none none hne (Or.inl rfl)).2

/-- C3 (witness): the amended selection/constant-run theorem at a concrete
configuration with disabled objectiveChange. -/
theorem cne_c3_selection_and_constant_run_witness :
    constRunConfig.Valid ∧ pop4.length = constRunConfig.populationSize
    ∧ 1 ≤ constRunConfig.maxGenerations
    ∧ constRunConfig.tolerance < (5:ℚ)
    ∧ constRunConfig.objectiveChange < 0
    ∧ ((selectParents constRunConfig (evalPop (fun _ => (5:ℚ)) pop4)).length
          = numParents constRunConfig
      ∧ numParents constRunConfig
          = max 2 (Int.toNat
              ⌈constRunConfig.selectPercent * (constRunConfig.populationSize : ℚ)⌉)
      ∧ selectParents constRunConfig (evalPop (fun _ => (5:ℚ)) pop4)
          = pop4.take (numParents constRunConfig)
      ∧ (Optimize constRunConfig (fun _ => (5:ℚ)) zeroOracle pop4).generations
          = constRunConfig.maxGenerations
      ∧ (Optimize constRunConfig (fun _ => (5:ℚ)) zeroOracle pop4).reason
          = .maxGenerations) :=
  ⟨by decide, by decide, by decide, by decide, by decide,
    cne_c3_selection_and_constant_run constRunConfig zeroOracle 5 pop4
      (by decide) (by decide) (by decide) (by decide) (by decide)⟩

/-- C4: the best fitness record of a run is monotonically non-increasing:
the final recorded best fitness is at most the recorded best at any point
of the loop, and elitism makes the per-generation minimum fitness itself
non-increasing from one generation to the next (the best parent carries
over unmodified). -/
theorem cne_c4_best_fitness_monotone (cfg : Config) (f : Candidate → ℚ)
    (o : Oracle) :
    (∀ (remaining gensDone : ℕ) (pop : Population) (r : Candidate × ℚ)
        (prevF : Option ℚ),
      (optimizeLoop cfg f o remaining gensDone pop (some r) prevF).bestFitness
        ≤ r.2)
    ∧ ∀ (g : ℕ) (pop : Population), pop ≠ [] →
        minFitness f (generationStep cfg o g (evalPop f pop)) ≤ minFitness f pop := by
  refine ⟨optimizeLoop_bestFitness_le cfg f o, ?_⟩
  intro g pop hne
  have hbne : evalPop f pop ≠ [] := evalPop_ne_nil f hne
  have hmem : (bestOfPairs (evalPop f pop)).1 ∈ generationStep cfg o g (evalPop f pop) :=
    List.mem_append_left _ (bestOfPairs_fst_mem_selectParents cfg hbne)
  have h1 := minFitness_le (f := f) hmem
  have h2 : f (bestOfPairs (evalPop f pop)).1 = (bestOfPairs (evalPop f pop)).2 :=
    ((of_mem_evalPop (bestOfPairs_mem hbne)).2).symm
  rw [h2] at h1
  exact h1

/-- C4 (witness): the monotonicity theorem applied at a concrete record
and a concrete one-generation step. -/
theorem cne_c4_best_fitness_monotone_witness :
    ((optimizeLoop smallConfig (fun _ => 5) zeroOracle 3 0 pop4
        (some ([0], 4)) none).bestFitness ≤ (4:ℚ))
    ∧ pop4 ≠ []
    ∧ minFitness (fun _ => 5)
        (generationStep smallConfig zeroOracle 1 (evalPop (fun _ => 5) pop4))
      ≤ minFitness (fun _ => 5) pop4 :=
  ⟨(cne_c4_best_fitness_monotone smallConfig (fun _ => 5) zeroOracle).1
      3 0 pop4 ([0], 4) none,
   by decide,
   (cne_c4_best_fitness_monotone smallConfig (fun _ => 5) zeroOracle).2
      1 pop4 (by decide)⟩

/-- C6: when tolerance is nonnegative and some candidate of the initial
population evaluates at or below tolerance, Optimize stops after the
first generation and returns the minimum fitness of the initial
population, which is at or below tolerance; and with a negative tolerance
the tolerance termination check never fires. -/
theorem cne_c6_tolerance_initial (cfg : Config) (f : Candidate → ℚ)
    (o : Oracle) (pop : Population) (c : Candidate)
    (h0 : 0 ≤ cfg.tolerance) (hc : c ∈ pop) (hf : f c ≤ cfg.tolerance) :
    ((Optimize cfg f o pop).generations = 1
      ∧ (Optimize cfg f o pop).bestFitness = minFitness f pop
      ∧ (Optimize cfg f o pop).bestFitness ≤ cfg.tolerance)
    ∧ ∀ cfg' : Config, cfg'.tolerance < 0 →
        ∀ (remaining gensDone : ℕ) (pop' : Population)
          (record : Option (Candidate × ℚ)) (prevF : Option ℚ),
          (optimizeLoop cfg' f o remaining gensDone pop' record prevF).reason
            ≠ .toleranceReached := by
  constructor
  · have hbest : (updateRecord none (bestOfPairs (evalPop f pop))).2
        = minFitness f pop := by
      rw [updateRecord_none, minFitness]
    have hle : minFitness f pop ≤ cfg.tolerance :=
      le_trans (minFitness_le hc) hf
    rw [Optimize]
    cases hm : cfg.maxGenerations with
    | zero =>
      rw [optimizeLoop_zero]
      exact ⟨rfl, hbest, by rw [hbest]; exact hle⟩
    | succ n =>
      cases n with
      | zero =>
        rw [optimizeLoop_one]
        exact ⟨rfl, hbest, by rw [hbest]; exact hle⟩
      | succ m =>
        rw [optimizeLoop_step]
        have htt : tolTriggered cfg
            (updateRecord none (bestOfPairs (evalPop f pop))).2 = true := by
          rw [tolTriggered, hbest]
          simp [h0, hle]
        rw [htt, if_pos rfl]
        exact ⟨rfl, hbest, by rw [hbest]; exact hle⟩
  · intro cfg' h'
    exact optimizeLoop_reason_ne_tol cfg' f o h'

/-- C6 (witness): the tolerance theorem applied to a concrete population
containing a candidate at the tolerance target. -/
theorem cne_c6_tolerance_initial_witness :
    ((0:ℚ) ≤ smallConfig.tolerance) ∧ ([0] : Candidate) ∈ pop4
    ∧ ((fun _ => (0:ℚ)) ([0] : Candidate) ≤ smallConfig.tolerance)
    ∧ (((Optimize smallConfig (fun _ => 0) zeroOracle pop4).generations = 1
      ∧ (Optimize smallConfig (fun _ => 0) zeroOracle pop4).bestFitness
          = minFitness (fun _ => 0) pop4
      ∧ (Optimize smallConfig (fun _ => 0) zeroOracle pop4).bestFitness
          ≤ smallConfig.tolerance)
    ∧ ∀ cfg' : Config, cfg'.tolerance < 0 →
        ∀ (remaining gensDone : ℕ) (pop' : Population)
          (record : Option (Candidate × ℚ)) (prevF : Option ℚ),
          (optimizeLoop cfg' (fun _ => 0) zeroOracle remaining gensDone pop'
              record prevF).reason ≠ .toleranceReached) :=
  ⟨by decide, by decide, by decide,
    cne_c6_tolerance_initial smallConfig (fun _ => 0) zeroOracle pop4 [0]
      (by decide) (by decide) (by decide)⟩

/-- C7 (counterexample): the claim bounds every run by maxGenerations, but
termination conditions are checked only after a generation has run, so a
valid configuration with maxGenerations = 0 still executes one
generation. -/
theorem cne_c7_maxGenerations_cex :
    zeroGenConfig.Valid
    ∧ zeroGenConfig.maxGenerations = 0
    ∧ (Optimize zeroGenConfig (fun _ => 0) zeroOracle pop4).generations = 1
    ∧ ¬ ((Optimize zeroGenConfig (fun _ => 0) zeroOracle pop4).generations
        ≤ zeroGenConfig.maxGenerations) := by
  refine ⟨by decide, rfl, by decide, by decide⟩

/-- C7 (amended): for every configuration with maxGenerations at least 1,
every objective and every oracle, Optimize terminates after at most
maxGenerations generations, and reaching the bound is normal termination:
under an adapter that never fails, the fallible optimizer returns ok of
exactly the pure run's outcome — there is no error and no other
distinguished status. -/
theorem cne_c7_terminates {ε : Type} (cfg : Config) (f : Candidate → ℚ)
    (o : Oracle) (pop : Population) (hmg : 1 ≤ cfg.maxGenerations) :
    (Optimize cfg f o pop).generations ≤ cfg.maxGenerations
    ∧ OptimizeE (ε := ε) cfg (fun c => .ok (f c)) o pop
        = .ok (Optimize cfg f o pop) := by
  constructor
  · have h := optimizeLoop_generations_le cfg f o cfg.maxGenerations 0 pop none none
    rw [max_eq_right hmg] at h
    rw [Optimize]
    omega
  · rw [Optimize, OptimizeE, optimizeLoopE_ok]

/-- C7 (witness): the termination theorem applied at a concrete valid
configuration and run. -/
theorem cne_c7_terminates_witness :
    1 ≤ smallConfig.maxGenerations
    ∧ ((Optimize smallConfig (fun _ => 5) zeroOracle pop4).generations
        ≤ smallConfig.maxGenerations
      ∧ OptimizeE (ε := Unit) smallConfig (fun c => .ok ((fun _ => (5:ℚ)) c))
          zeroOracle pop4
        = .ok (Optimize smallConfig (fun _ => 5) zeroOracle pop4)) :=
  ⟨by decide,
    cne_c7_terminates smallConfig (fun _ => 5) zeroOracle pop4 (by decide)⟩

/-- C8: for every valid configuration, Optimize started from an initial
population of the dimensionality of initialParameters returns a
best-parameter vector of exactly that dimensionality (its fitness value is
the bestFitness component of the same outcome). -/
theorem cne_c8_result_dimension (cfg : Config) (f : Candidate → ℚ)
    (o : Oracle) (init : ℕ → ℕ → ℚ) (initialParameters : Candidate)
    (hv : cfg.Valid) :
    (OptimizeFrom cfg f o init initialParameters).bestParams.length
      = initialParameters.length := by
  rw [OptimizeFrom, Optimize]
  apply optimizeLoop_bestParams_length
  · apply List.ne_nil_of_length_pos
    rw [initPopulation_length]
    have := hv.1
    omega
  · exact initPopulation_lengths cfg init _
  · intro r hr
    exact Option.noConfusion hr

/-- C8 (witness): the dimensionality theorem applied to a concrete
two-dimensional initial parameter vector. -/
theorem cne_c8_result_dimension_witness :
    smallConfig.Valid
    ∧ (OptimizeFrom smallConfig (fun _ => 5) zeroOracle (fun _ _ => 0)
        [0, 1]).bestParams.length = ([0, 1] : Candidate).length :=
  ⟨by decide,
    cne_c8_result_dimension smallConfig (fun _ => 5) zeroOracle (fun _ _ => 0)
      [0, 1] (by decide)⟩

/-- C9: an error raised by the objective adapter while evaluating the
current population propagates unchanged to the caller of Optimize: the
whole run returns exactly that error, from any loop state, with no retry,
no catch and no partial result; moreover an error of the first candidate
in evaluation order is the error the population evaluation reports. -/
theorem cne_c9_error_propagation {ε : Type} (cfg : Config)
    (fE : Candidate → Except ε ℚ) (o : Oracle) (pop : Population) (e : ε)
    (h : evalPopE fE pop = .error e) :
    OptimizeE cfg fE o pop = .error e
    ∧ (∀ (remaining gensDone : ℕ) (record : Option (Candidate × ℚ))
        (prevF : Option ℚ),
        optimizeLoopE cfg fE o remaining gensDone pop record prevF = .error e)
    ∧ ∀ (c : Candidate) (rest : Population), fE c = .error e →
        evalPopE fE (c :: rest) = .error e := by
  refine ⟨?_, ?_, ?_⟩
  · rw [OptimizeE]
    exact optimizeLoopE_error cfg fE o _ _ pop none none e h
  · intro remaining gensDone record prevF
    exact optimizeLoopE_error cfg fE o _ _ pop record prevF e h
  · intro c rest hc
    rw [evalPopE, hc]

/-- C9 (witness): the propagation theorem applied to a concrete adapter
that fails on every candidate. -/
theorem cne_c9_error_propagation_witness :
    evalPopE failAdapter pop4 = .error ()
    ∧ (OptimizeE smallConfig failAdapter zeroOracle pop4 = .error ()
      ∧ (∀ (remaining gensDone : ℕ) (record : Option (Candidate × ℚ))
          (prevF : Option ℚ),
          optimizeLoopE smallConfig failAdapter zeroOracle remaining
            gensDone pop4 record prevF = .error ())
      ∧ ∀ (c : Candidate) (rest : Population), failAdapter c = .error () →
          evalPopE failAdapter (c :: rest) = .error ()) :=
  ⟨rfl,
    cne_c9_error_propagation smallConfig failAdapter zeroOracle pop4 () rfl⟩

/-- C10: the fitness history of the objectiveChange check is exactly the
best fitness of the two most recent consecutive generations: with a
nonnegative objectiveChange, as soon as the previous generation's best
minus the current best record is not greater than objectiveChange (and the
tolerance check did not already fire), the loop stops at the current
generation with the objectiveChange reason; and the check fires exactly
when objectiveChange is nonnegative and that single-generation change is
not greater than it. -/
theorem cne_c10_objectiveChange_window (cfg : Config) (f : Candidate → ℚ)
    (o : Oracle) (r gensDone : ℕ) (pop : Population)
    (record : Option (Candidate × ℚ)) (p : ℚ)
    (htol : tolTriggered cfg
        (updateRecord record (bestOfPairs (evalPop f pop))).2 = false)
    (hoc : 0 ≤ cfg.objectiveChange)
    (hch : p - (updateRecord record (bestOfPairs (evalPop f pop))).2
        ≤ cfg.objectiveChange) :
    (optimizeLoop cfg f o (r + 2) gensDone pop record (some p)).generations
        = gensDone + 1
    ∧ (optimizeLoop cfg f o (r + 2) gensDone pop record (some p)).reason
        = .objectiveChangeSmall
    ∧ (objTriggered cfg (some p)
          (updateRecord record (bestOfPairs (evalPop f pop))).2 = true
        ↔ 0 ≤ cfg.objectiveChange
          ∧ p - (updateRecord record (bestOfPairs (evalPop f pop))).2
              ≤ cfg.objectiveChange) := by
  have hobj : objTriggered cfg (some p)
      (updateRecord record (bestOfPairs (evalPop f pop))).2 = true := by
    simp [objTriggered, hoc, hch]
  rw [optimizeLoop_step, htol]
  rw [if_neg (by simp), hobj, if_pos rfl]
  exact ⟨rfl, rfl, ⟨fun _ => ⟨hoc, hch⟩, fun _ => rfl⟩⟩

/-- C10 (witness): the objectiveChange-window theorem applied at a
concrete state whose best fitness matches the previous generation's. -/
theorem cne_c10_objectiveChange_window_witness :
    tolTriggered smallConfig
        (updateRecord none (bestOfPairs (evalPop (fun _ => 5) pop4))).2 = false
    ∧ (0:ℚ) ≤ smallConfig.objectiveChange
    ∧ (5:ℚ) - (updateRecord none (bestOfPairs (evalPop (fun _ => 5) pop4))).2
        ≤ smallConfig.objectiveChange
    ∧ ((optimizeLoop smallConfig (fun _ => 5) zeroOracle 7 3 pop4 none
          (some 5)).generations = 3 + 1
      ∧ (optimizeLoop smallConfig (fun _ => 5) zeroOracle 7 3 pop4 none
          (some 5)).reason = .objectiveChangeSmall
      ∧ (objTriggered smallConfig (some 5)
            (updateRecord none (bestOfPairs (evalPop (fun _ => 5) pop4))).2 = true
          ↔ (0:ℚ) ≤ smallConfig.objectiveChange
            ∧ (5:ℚ) - (updateRecord none
                (bestOfPairs (evalPop (fun _ => 5) pop4))).2
              ≤ smallConfig.objectiveChange)) :=
  ⟨by decide, by decide, by decide,
    cne_c10_objectiveChange_window smallConfig (fun _ => 5) zeroOracle 5 3
      pop4 none 5 (by decide) (by decide) (by decide)⟩

end ClaimTheorems

end CNE
